import Mathlib

/-!
Verification of the osirisgate/golang-core structured-error library.

The development shallowly embeds the two core components:

* `src/enum/status_code.go` — the status-code registry (`statusDescriptions`,
  `GetDescription`, `NewStatusCode`, `GetStatusTexts`).
* `src/exception/bad_function_call.go` — the `CoreException` model
  (`NewInstance`, accessors, `Format`, `GetErrorsForLog`).

Go dynamic values (`interface` values stored in `map[string]interface` maps)
are embedded as the inductive `GoVal`; a Go string-keyed map becomes an
association list with unique keys (`mapWF`).  A Go `nil` map is embedded as
the empty list: the exception code only ever reads, ranges over, or deletes
from its detail map, and for those operations a `nil` Go map is observably
identical to an empty one.  The stack trace captured by `debug.Stack()` is
nondeterministic, so `NewInstance` takes it as an explicit parameter.
-/

namespace GolangCore

/-- Embedding of a Go dynamic (interface) value as stored in the detail
maps: a string, an integer, a nested string-keyed map, or some other
non-string non-map value (collapsed to `vnull`). -/
inductive GoVal where
  | vstr : String → GoVal
  | vint : Int → GoVal
  | vmap : List (String × GoVal) → GoVal
  | vnull : GoVal

/-- A Go `map` with string keys and dynamic values, as an association list. -/
abbrev GoMap := List (String × GoVal)

section AssocMap

variable {α : Type} {β : Type} [DecidableEq α]

/-- Go map read `m[k]`: the first binding of `k`, if any. -/
def mapGet : List (α × β) → α → Option β
  | [], _ => none
  | (a, b) :: rest, key => if key = a then some b else mapGet rest key

/-- Go `delete(m, k)`: removes every binding of `k`. -/
def mapDelete : List (α × β) → α → List (α × β)
  | [], _ => []
  | (a, b) :: rest, key =>
      if a = key then mapDelete rest key else (a, b) :: mapDelete rest key

/-- Go map write `m[k] = v`: overwrites any existing binding of `k`. -/
def mapInsert (m : List (α × β)) (k : α) (v : β) : List (α × β) :=
  mapDelete m k ++ [(k, v)]

/-- The keys of a map, in representation order. -/
def mapKeys (m : List (α × β)) : List α := m.map Prod.fst

/-- A Go `for k, v := range src` loop whose body does `dst[k] = v`. -/
def foldInsert (acc : List (α × β)) (l : List (α × β)) : List (α × β) :=
  l.foldl (fun a kv => mapInsert a kv.1 kv.2) acc

/-- Well-formedness invariant of the association-list embedding: a real Go
map binds each key at most once. -/
abbrev mapWF (m : List (α × β)) : Prop := (mapKeys m).Nodup

theorem mapGet_delete_self (m : List (α × β)) (k : α) :
    mapGet (mapDelete m k) k = none := by
  induction m with
  | nil => rfl
  | cons hd tl ih =>
      obtain ⟨a, b⟩ := hd
      by_cases h : a = k
      · simpa [mapDelete, h] using ih
      · have hk : k ≠ a := fun hkk => h hkk.symm
        simp [mapDelete, mapGet, h, hk, ih]

theorem mapGet_delete_ne (m : List (α × β)) (k q : α) (h : q ≠ k) :
    mapGet (mapDelete m k) q = mapGet m q := by
  induction m with
  | nil => rfl
  | cons hd tl ih =>
      obtain ⟨a, b⟩ := hd
      by_cases ha : a = k
      · have hq : q ≠ a := fun hqa => h (hqa.trans ha)
        simp [mapDelete, mapGet, ha, hq, h, ih]
      · by_cases hq : q = a
        · simp [mapDelete, mapGet, ha, hq]
        · simp [mapDelete, mapGet, ha, hq, ih]

theorem mapGet_append_of_some (l1 l2 : List (α × β)) (k : α) (v : β)
    (h : mapGet l1 k = some v) : mapGet (l1 ++ l2) k = some v := by
  induction l1 with
  | nil => exact absurd h (by simp [mapGet])
  | cons hd tl ih =>
      obtain ⟨a, b⟩ := hd
      by_cases hk : k = a
      · simp [mapGet, hk] at h ⊢
        exact h
      · simp [mapGet, hk] at h ⊢
        exact ih h

theorem mapGet_append_of_none (l1 l2 : List (α × β)) (k : α)
    (h : mapGet l1 k = none) : mapGet (l1 ++ l2) k = mapGet l2 k := by
  induction l1 with
  | nil => rfl
  | cons hd tl ih =>
      obtain ⟨a, b⟩ := hd
      by_cases hk : k = a
      · simp [mapGet, hk] at h
      · simp [mapGet, hk] at h ⊢
        exact ih h

theorem mapGet_insert_self (m : List (α × β)) (k : α) (v : β) :
    mapGet (mapInsert m k v) k = some v := by
  unfold mapInsert
  rw [mapGet_append_of_none _ _ _ (mapGet_delete_self m k)]
  simp [mapGet]

theorem mapGet_insert_ne (m : List (α × β)) (k q : α) (v : β) (h : q ≠ k) :
    mapGet (mapInsert m k v) q = mapGet m q := by
  unfold mapInsert
  cases hg : mapGet (mapDelete m k) q with
  | some w =>
      rw [mapGet_append_of_some _ _ _ _ hg]
      rw [mapGet_delete_ne m k q h] at hg
      exact hg.symm
  | none =>
      rw [mapGet_append_of_none _ _ _ hg]
      rw [mapGet_delete_ne m k q h] at hg
      simp [mapGet, h, hg]

theorem mapGet_eq_none_iff (m : List (α × β)) (k : α) :
    mapGet m k = none ↔ k ∉ mapKeys m := by
  induction m with
  | nil => simp [mapGet, mapKeys]
  | cons hd tl ih =>
      obtain ⟨a, b⟩ := hd
      by_cases hk : k = a
      · simp [mapGet, mapKeys, hk]
      · simp [mapGet, mapKeys, hk, ih]

theorem foldInsert_get_of_not_mem (acc l : List (α × β)) (k : α)
    (h : k ∉ mapKeys l) : mapGet (foldInsert acc l) k = mapGet acc k := by
  induction l generalizing acc with
  | nil => rfl
  | cons hd tl ih =>
      obtain ⟨a, b⟩ := hd
      simp [mapKeys] at h
      push_neg at h
      have step : foldInsert acc ((a, b) :: tl) = foldInsert (mapInsert acc a b) tl := rfl
      rw [step, ih _ (by simpa [mapKeys] using h.2)]
      exact mapGet_insert_ne acc a k b h.1

theorem foldInsert_get_of_get (acc l : List (α × β)) (k : α) (v : β)
    (hnd : mapWF l) (h : mapGet l k = some v) :
    mapGet (foldInsert acc l) k = some v := by
  induction l generalizing acc with
  | nil => exact absurd h (by simp [mapGet])
  | cons hd tl ih =>
      obtain ⟨a, b⟩ := hd
      have step : foldInsert acc ((a, b) :: tl) = foldInsert (mapInsert acc a b) tl := rfl
      simp [mapWF, mapKeys] at hnd
      by_cases hk : k = a
      · simp [mapGet, hk] at h
        subst hk
        subst h
        rw [step, foldInsert_get_of_not_mem _ _ _ (by simpa [mapKeys] using hnd.1)]
        exact mapGet_insert_self acc k b
      · simp [mapGet, hk] at h
        rw [step]
        exact ih _ (by simpa [mapWF, mapKeys] using hnd.2) h

theorem foldInsert_get_total (l : List (α × β)) (k : α) (hnd : mapWF l) :
    mapGet (foldInsert ([] : List (α × β)) l) k = mapGet l k := by
  cases h : mapGet l k with
  | some v => exact foldInsert_get_of_get [] l k v hnd h
  | none =>
      have hk : k ∉ mapKeys l := (mapGet_eq_none_iff l k).mp h
      rw [foldInsert_get_of_not_mem [] l k hk]
      rfl

end AssocMap

/-! ### Status-code registry, from `src/enum/status_code.go`.

`StatusCode` is a Go `int`, embedded as `Int`.  `statusDescriptions` is the
registry table, entry for entry. -/

/-- The registry table `statusDescriptions`, transcribed from the source. -/
def statusDescriptions : List (Int × String) :=
  [ (100, "Continue"),
    (101, "Switching Protocols"),
    (102, "Processing"),
    (103, "Early Hints"),
    (200, "OK"),
    (201, "Created"),
    (202, "Accepted"),
    (203, "Non-Authoritative Information"),
    (204, "No Content"),
    (205, "Reset Content"),
    (206, "Partial Content"),
    (207, "Multi-Status"),
    (208, "Already Reported"),
    (226, "IM Used"),
    (300, "Multiple Choices"),
    (301, "Moved Permanently"),
    (302, "Found"),
    (303, "See Other"),
    (304, "Not Modified"),
    (305, "Use Proxy"),
    (307, "Temporary Redirect"),
    (308, "Permanent Redirect"),
    (400, "Bad Request"),
    (401, "Unauthorized"),
    (402, "Payment Required"),
    (403, "Forbidden"),
    (404, "Not Found"),
    (405, "Method Not Allowed"),
    (406, "Not Acceptable"),
    (407, "Proxy Authentication Required"),
    (408, "Request Timeout"),
    (409, "Conflict"),
    (410, "Gone"),
    (411, "Length Required"),
    (412, "Precondition Failed"),
    (413, "Content Too Large"),
    (414, "URI Too Long"),
    (415, "Unsupported Media Type"),
    (416, "Range Not Satisfiable"),
    (417, "Expectation Failed"),
    (418, "I\x27m a teapot"),
    (421, "Misdirected Request"),
    (422, "Unprocessable Content"),
    (423, "Locked"),
    (424, "Failed Dependency"),
    (425, "Too Early"),
    (426, "Upgrade Required"),
    (428, "Precondition Required"),
    (429, "Too Many Requests"),
    (431, "Request Header Fields Too Large"),
    (451, "Unavailable For Legal Reasons"),
    (500, "Internal Server Error"),
    (501, "Not Implemented"),
    (502, "Bad Gateway"),
    (503, "Service Unavailable"),
    (504, "Gateway Timeout"),
    (505, "HTTP Version Not Supported"),
    (506, "Variant Also Negotiates"),
    (507, "Insufficient Storage"),
    (508, "Loop Detected"),
    (510, "Not Extended"),
    (511, "Network Authentication Required") ]

/-- `func (c StatusCode) GetValue() int`: the integer form of the code. -/
def GetValue (c : Int) : Int := c

/-- `func (c StatusCode) GetDescription() string`: registry lookup with the
sentinel fallback for unknown codes. -/
def GetDescription (c : Int) : String :=
  match mapGet statusDescriptions c with
  | some desc => desc
  | none => "Unknown Status Code"

/-- `func NewStatusCode(value int) (StatusCode, bool)`: validates an integer
against the registry, returning the zero value and `false` on failure. -/
def NewStatusCode (value : Int) : Int × Bool :=
  match mapGet statusDescriptions value with
  | some _ => (value, true)
  | none => (0, false)

/-- `func GetStatusTexts() map[StatusCode]string`: `make` a fresh map and
copy every registry entry into it with a range loop. -/
def GetStatusTexts : List (Int × String) :=
  foldInsert [] statusDescriptions

/-! ### Structured-error model, from `src/exception/bad_function_call.go`.

`CoreException` carries the message, the status code, the detail map
(`Errors`) and the stack trace.  `debug.Stack()` is nondeterministic, so the
constructor takes the captured trace as a parameter. -/

/-- The `status.ERROR` sentinel from the status-flag value type. -/
def ERROR : String := "error"

/-- The `CoreException` struct. -/
structure CoreException where
  Message : String
  StatusCode : Int
  Errors : GoMap
  StackTrace : String

/-- `func NewInstance(errors map[string]interface, defaultStatusCode status.StatusCode) *CoreException`.

The source does `message, ok := errors["message"].(string)`; when the
assertion fails or yields the empty string it falls back to the default
code description and leaves `errors` untouched, otherwise it adopts the
message and deletes the key. -/
def NewInstance (errors : GoMap) (defaultStatusCode : Int) (stackTrace : String) :
    CoreException :=
  match mapGet errors "message" with
  | some (GoVal.vstr s) =>
      if s = "" then
        { Message := GetDescription defaultStatusCode
          StatusCode := defaultStatusCode
          Errors := errors
          StackTrace := stackTrace }
      else
        { Message := s
          StatusCode := defaultStatusCode
          Errors := mapDelete errors "message"
          StackTrace := stackTrace }
  | _ =>
      { Message := GetDescription defaultStatusCode
        StatusCode := defaultStatusCode
        Errors := errors
        StackTrace := stackTrace }

/-- `func (e CoreException) Error() string`. -/
def CoreException.Error (e : CoreException) : String := e.Message

/-- `func (e CoreException) GetStatusCode() int`. -/
def CoreException.GetStatusCode (e : CoreException) : Int :=
  GetValue e.StatusCode

/-- `func (e CoreException) GetErrors() map[string]interface`. -/
def CoreException.GetErrors (e : CoreException) : GoMap := e.Errors

/-- `func (e CoreException) GetDetails() map[string]interface`: the nested
`"details"` sub-map when present and of map type, else an empty map. -/
def CoreException.GetDetails (e : CoreException) : GoMap :=
  match mapGet e.Errors "details" with
  | some (GoVal.vmap details) => details
  | _ => []

/-- `func (e CoreException) GetDetailsMessage() string`: the `"error"`
string inside `GetDetails()`, else the empty string. -/
def CoreException.GetDetailsMessage (e : CoreException) : String :=
  match mapGet e.GetDetails "error" with
  | some (GoVal.vstr msg) => msg
  | _ => ""

/-- `func (e CoreException) GetErrorsForLog() map[string]interface`: the
fixed four-key log view with the detail map nested under `"errors"`. -/
def CoreException.GetErrorsForLog (e : CoreException) : GoMap :=
  [ ("message", GoVal.vstr e.Message),
    ("status_code", GoVal.vint (GetValue e.StatusCode)),
    ("errors", GoVal.vmap e.Errors),
    ("stack_trace", GoVal.vstr e.StackTrace) ]

/-- `func (e CoreException) GetStackTrace() string`. -/
def CoreException.GetStackTrace (e : CoreException) : String := e.StackTrace

/-- `func (e CoreException) Format() map[string]interface`: the fixed
three-key API view, then every detail-map entry written over it.  The
source guards the loop with `e.Errors != nil`; ranging over an empty map
is the same as skipping the loop, so the guard needs no separate case. -/
def CoreException.Format (e : CoreException) : GoMap :=
  let formatted : GoMap :=
    [ ("status", GoVal.vstr ERROR),
      ("error_code", GoVal.vint (GetValue e.StatusCode)),
      ("message", GoVal.vstr e.Message) ]
  foldInsert formatted e.Errors

/-! ### A heap of registry-shaped maps.

`GetStatusTexts` promises a defensive copy: mutating the returned map must
leave the process-wide `statusDescriptions` table untouched.  Aliasing is
invisible in a pure embedding, so we model a small heap of `Int → String`
maps: the registry lives in cell 0, `make` allocates a fresh cell, and Go
map writes and deletes mutate one cell in place.  `GetStatusTextsH` is the
heap-level reading of the source function: allocate, copy entry by entry,
return the new cell. -/

/-- A map of the registry shape (`map[StatusCode]string`). -/
abbrev RegMap := List (Int × String)

/-- A heap of registry-shaped Go maps; a location is an index into `cells`. -/
structure MapHeap where
  cells : List RegMap

/-- Dereference a map location. -/
def heapRead (h : MapHeap) (loc : Nat) : RegMap :=
  h.cells.getD loc []

/-- Replace the map stored at a location. -/
def heapWrite (h : MapHeap) (loc : Nat) (m : RegMap) : MapHeap :=
  ⟨h.cells.set loc m⟩

/-- A single in-place Go map mutation: a keyed write or a delete. -/
inductive RegMut where
  | ins : Int → String → RegMut
  | del : Int → RegMut

/-- Apply one mutation to the map at `loc`. -/
def applyMut (h : MapHeap) (loc : Nat) : RegMut → MapHeap
  | RegMut.ins k v => heapWrite h loc (mapInsert (heapRead h loc) k v)
  | RegMut.del k => heapWrite h loc (mapDelete (heapRead h loc) k)

/-- Apply a sequence of mutations to the map at `loc`. -/
def applyMuts (h : MapHeap) (loc : Nat) (ms : List RegMut) : MapHeap :=
  ms.foldl (fun acc m => applyMut acc loc m) h

/-- The initial heap: the registry table in cell 0, nothing else. -/
def heap0 : MapHeap := ⟨[statusDescriptions]⟩

/-- Heap-level `GetStatusTexts`: `make` a fresh map (a new cell), copy every
registry entry into it, and hand the new location to the caller. -/
def GetStatusTextsH (h : MapHeap) : Nat × MapHeap :=
  let copyMap := foldInsert [] (heapRead h 0)
  (h.cells.length, ⟨h.cells ++ [copyMap]⟩)

/-- Heap-level `GetDescription`: reads the registry cell. -/
def GetDescriptionH (h : MapHeap) (c : Int) : String :=
  match mapGet (heapRead h 0) c with
  | some desc => desc
  | none => "Unknown Status Code"

/-- Heap-level `NewStatusCode`: reads the registry cell. -/
def NewStatusCodeH (h : MapHeap) (value : Int) : Int × Bool :=
  match mapGet (heapRead h 0) value with
  | some _ => (value, true)
  | none => (0, false)

section HeapLemmas

theorem getD_set_ne_zero (l : List RegMap) (i : Nat) (a : RegMap) (h : i ≠ 0) :
    (l.set i a).getD 0 [] = l.getD 0 [] := by
  cases l with
  | nil => simp
  | cons hd tl =>
      cases i with
      | zero => exact absurd rfl h
      | succ n => rfl

theorem getD_append_length (l : List RegMap) (x : RegMap) :
    (l ++ [x]).getD l.length [] = x := by
  induction l with
  | nil => rfl
  | cons hd tl ih => exact ih

theorem heapRead_applyMut_zero (h : MapHeap) (loc : Nat) (m : RegMut)
    (hne : loc ≠ 0) : heapRead (applyMut h loc m) 0 = heapRead h 0 := by
  cases m with
  | ins k v => exact getD_set_ne_zero h.cells loc _ hne
  | del k => exact getD_set_ne_zero h.cells loc _ hne

theorem heapRead_applyMuts_zero (ms : List RegMut) (h : MapHeap) (loc : Nat)
    (hne : loc ≠ 0) : heapRead (applyMuts h loc ms) 0 = heapRead h 0 := by
  induction ms generalizing h with
  | nil => rfl
  | cons hd tl ih =>
      rw [show applyMuts h loc (hd :: tl) = applyMuts (applyMut h loc hd) loc tl from rfl]
      rw [ih (applyMut h loc hd)]
      exact heapRead_applyMut_zero h loc hd hne

end HeapLemmas

end GolangCore

namespace GolangCore

/-! ### Helper facts about the registry and constructor. -/

theorem mapGet_some_mem {α β : Type} [DecidableEq α] (m : List (α × β)) (k : α) (v : β)
    (h : mapGet m k = some v) : (k, v) ∈ m := by
  induction m with
  | nil => exact absurd h (by simp [mapGet])
  | cons hd tl ih =>
      obtain ⟨a, b⟩ := hd
      by_cases hk : k = a
      · subst hk
        simp [mapGet] at h
        subst h
        exact List.mem_cons_self _ _
      · simp [mapGet, hk] at h
        exact List.mem_cons_of_mem _ (ih h)

theorem getDescription_ne_empty (c : Int) : GetDescription c ≠ "" := by
  unfold GetDescription
  cases hm : mapGet statusDescriptions c with
  | none => decide
  | some d =>
      have hall : ∀ p ∈ statusDescriptions, p.2 ≠ "" := by decide
      exact hall (c, d) (mapGet_some_mem statusDescriptions c d hm)

/-! ### The claims. -/

/-- Claim C1: `Format` starts from the fixed mapping of `"status"`,
`"error_code"` and `"message"` and then writes every detail-bag entry over
it, so a detail-bag binding for any key (the fixed keys included) always
wins, while a fixed key not bound in the bag keeps its fixed value. -/
theorem format_flatten_precedence (e : CoreException) (hw : mapWF e.Errors) :
    (∀ k v, mapGet e.Errors k = some v → mapGet e.Format k = some v) ∧
    (mapGet e.Errors "status" = none →
      mapGet e.Format "status" = some (GoVal.vstr ERROR)) ∧
    (mapGet e.Errors "error_code" = none →
      mapGet e.Format "error_code" = some (GoVal.vint (GetValue e.StatusCode))) ∧
    (mapGet e.Errors "message" = none →
      mapGet e.Format "message" = some (GoVal.vstr e.Message)) := by
  refine ⟨?_, ?_, ?_, ?_⟩
  · intro k v h
    exact foldInsert_get_of_get _ e.Errors k v hw h
  · intro h
    have hnot := (mapGet_eq_none_iff e.Errors "status").mp h
    show mapGet (foldInsert
        [ ("status", GoVal.vstr ERROR),
          ("error_code", GoVal.vint (GetValue e.StatusCode)),
          ("message", GoVal.vstr e.Message) ] e.Errors) "status"
      = some (GoVal.vstr ERROR)
    rw [foldInsert_get_of_not_mem _ e.Errors "status" hnot]
    rfl
  · intro h
    have hnot := (mapGet_eq_none_iff e.Errors "error_code").mp h
    show mapGet (foldInsert
        [ ("status", GoVal.vstr ERROR),
          ("error_code", GoVal.vint (GetValue e.StatusCode)),
          ("message", GoVal.vstr e.Message) ] e.Errors) "error_code"
      = some (GoVal.vint (GetValue e.StatusCode))
    rw [foldInsert_get_of_not_mem _ e.Errors "error_code" hnot]
    rfl
  · intro h
    have hnot := (mapGet_eq_none_iff e.Errors "message").mp h
    show mapGet (foldInsert
        [ ("status", GoVal.vstr ERROR),
          ("error_code", GoVal.vint (GetValue e.StatusCode)),
          ("message", GoVal.vstr e.Message) ] e.Errors) "message"
      = some (GoVal.vstr e.Message)
    rw [foldInsert_get_of_not_mem _ e.Errors "message" hnot]
    rfl

/-- Claim C1 witness: constructing with a detail bag binding `"status"` to
`"pending"` makes the API view show `"pending"`, not the error sentinel. -/
theorem format_flatten_precedence_witness :
    mapGet (NewInstance [("status", GoVal.vstr "pending")] 400 "trace").Format "status"
      = some (GoVal.vstr "pending") :=
  (format_flatten_precedence (NewInstance [("status", GoVal.vstr "pending")] 400 "trace")
      (by decide)).1 "status" (GoVal.vstr "pending") rfl

/-- Claim C2: a non-empty string under `"message"` becomes the message and
the key is deleted from the bag; with no such value the message is the
default status code description. -/
theorem newInstance_message_resolution (details : GoMap) (code : Int) (tr : String) :
    (∀ v, mapGet details "message" = some (GoVal.vstr v) → v ≠ "" →
      (NewInstance details code tr).Message = v ∧
      mapGet (NewInstance details code tr).GetErrors "message" = none) ∧
    ((∀ v, v ≠ "" → mapGet details "message" ≠ some (GoVal.vstr v)) →
      (NewInstance details code tr).Message = GetDescription code) := by
  constructor
  · intro v hv hne
    simp [NewInstance, CoreException.GetErrors, hv, hne, mapGet_delete_self]
  · intro h
    cases hm : mapGet details "message" with
    | none => simp [NewInstance, hm]
    | some x =>
        cases x with
        | vstr s =>
            by_cases hs : s = ""
            · subst hs
              simp [NewInstance, hm]
            · exact absurd hm (h s hs)
        | vint n => simp [NewInstance, hm]
        | vmap m => simp [NewInstance, hm]
        | vnull => simp [NewInstance, hm]

/-- Claim C2 witness at a concrete bag carrying a non-empty message. -/
theorem newInstance_message_resolution_witness :
    (NewInstance [("message", GoVal.vstr "X"), ("field", GoVal.vstr "username")] 404 "trace").Message
      = "X" ∧
    mapGet (NewInstance [("message", GoVal.vstr "X"), ("field", GoVal.vstr "username")] 404
        "trace").GetErrors "message" = none :=
  (newInstance_message_resolution [("message", GoVal.vstr "X"), ("field", GoVal.vstr "username")]
      404 "trace").1 "X" rfl (by decide)

/-- Claim C3 counterexample: when the input binds `"message"` to the empty
string, the constructor takes the fallback branch and never deletes the
key, so the constructed detail bag still contains `"message"`. -/
theorem message_key_retained_counterexample :
    mapGet (NewInstance [("message", GoVal.vstr "")] 400 "trace").GetErrors "message"
      = some (GoVal.vstr "") := rfl

/-- Claim C3 (amended): for every input whose `"message"` key, when
present, holds a non-empty string, the constructed detail bag never
contains a `"message"` key; consequently the log view nests that same
bag and the API view's `"message"` stays the resolved message. -/
theorem newInstance_no_message_key (details : GoMap) (code : Int) (tr : String)
    (h : ∀ x, mapGet details "message" = some x → ∃ s, x = GoVal.vstr s ∧ s ≠ "") :
    mapGet (NewInstance details code tr).GetErrors "message" = none ∧
    mapGet (NewInstance details code tr).GetErrorsForLog "errors"
      = some (GoVal.vmap (NewInstance details code tr).GetErrors) ∧
    mapGet (NewInstance details code tr).Format "message"
      = some (GoVal.vstr (NewInstance details code tr).Message) := by
  have hbag : mapGet (NewInstance details code tr).GetErrors "message" = none := by
    cases hm : mapGet details "message" with
    | none => simp [NewInstance, CoreException.GetErrors, hm]
    | some x =>
        obtain ⟨s, rfl, hs⟩ := h x hm
        simp [NewInstance, CoreException.GetErrors, hm, hs, mapGet_delete_self]
  have hbagE : mapGet (NewInstance details code tr).Errors "message" = none := hbag
  have hnot := (mapGet_eq_none_iff ((NewInstance details code tr).Errors) "message").mp hbagE
  refine ⟨hbag, rfl, ?_⟩
  show mapGet (foldInsert
      [ ("status", GoVal.vstr ERROR),
        ("error_code", GoVal.vint (GetValue (NewInstance details code tr).StatusCode)),
        ("message", GoVal.vstr (NewInstance details code tr).Message) ]
      (NewInstance details code tr).Errors) "message"
    = some (GoVal.vstr (NewInstance details code tr).Message)
  rw [foldInsert_get_of_not_mem _ _ "message" hnot]
  rfl

/-- Claim C3 amended-claim witness at a concrete bag. -/
theorem newInstance_no_message_key_witness :
    mapGet (NewInstance [("message", GoVal.vstr "X")] 400 "trace").GetErrors "message" = none ∧
    mapGet (NewInstance [("message", GoVal.vstr "X")] 400 "trace").Format "message"
      = some (GoVal.vstr (NewInstance [("message", GoVal.vstr "X")] 400 "trace").Message) := by
  have h := newInstance_no_message_key [("message", GoVal.vstr "X")] 400 "trace" ?hh
  · exact ⟨h.1, h.2.2⟩
  case hh =>
    intro x hx
    have hx2 : some (GoVal.vstr "X") = some x := hx
    injection hx2 with hx3
    exact ⟨"X", hx3.symm, by decide⟩

/-- Claim C4: the constructed message is never empty: it is the supplied
non-empty string or the default code description, and descriptions
(the unknown-code sentinel included) are never empty. -/
theorem newInstance_message_nonempty (details : GoMap) (code : Int) (tr : String) :
    (NewInstance details code tr).Message ≠ "" ∧
    ((∃ s, mapGet details "message" = some (GoVal.vstr s) ∧ s ≠ "" ∧
        (NewInstance details code tr).Message = s) ∨
      (NewInstance details code tr).Message = GetDescription code) := by
  cases hm : mapGet details "message" with
  | none =>
      refine ⟨?_, Or.inr ?_⟩ <;> simp [NewInstance, hm, getDescription_ne_empty]
  | some x =>
      cases x with
      | vstr s =>
          by_cases hs : s = ""
          · subst hs
            refine ⟨?_, Or.inr ?_⟩ <;> simp [NewInstance, hm, getDescription_ne_empty]
          · refine ⟨?_, Or.inl ⟨s, rfl, hs, ?_⟩⟩ <;> simp [NewInstance, hm, hs]
      | vint n => refine ⟨?_, Or.inr ?_⟩ <;> simp [NewInstance, hm, getDescription_ne_empty]
      | vmap m => refine ⟨?_, Or.inr ?_⟩ <;> simp [NewInstance, hm, getDescription_ne_empty]
      | vnull => refine ⟨?_, Or.inr ?_⟩ <;> simp [NewInstance, hm, getDescription_ne_empty]

/-- Claim C5: the log view is exactly the four reserved keys, with the
full unflattened detail bag nested under `"errors"`; its values come
only from the exception fields, so bag keys never overwrite them. -/
theorem getErrorsForLog_shape (e : CoreException) :
    mapKeys e.GetErrorsForLog = ["message", "status_code", "errors", "stack_trace"] ∧
    mapGet e.GetErrorsForLog "message" = some (GoVal.vstr e.Message) ∧
    mapGet e.GetErrorsForLog "status_code" = some (GoVal.vint (GetValue e.StatusCode)) ∧
    mapGet e.GetErrorsForLog "errors" = some (GoVal.vmap e.Errors) ∧
    mapGet e.GetErrorsForLog "stack_trace" = some (GoVal.vstr e.StackTrace) :=
  ⟨rfl, rfl, rfl, rfl, rfl⟩

/-- Claim C6: `GetDetails` returns the `"details"` sub-map when present
and of map type, else the empty map; `GetDetailsMessage` returns the
`"error"` string inside it, else the empty string; both are total. -/
theorem getDetails_spec (e : CoreException) :
    (∀ m, mapGet e.Errors "details" = some (GoVal.vmap m) → e.GetDetails = m) ∧
    ((∀ m, mapGet e.Errors "details" ≠ some (GoVal.vmap m)) → e.GetDetails = []) ∧
    (∀ s, mapGet e.GetDetails "error" = some (GoVal.vstr s) → e.GetDetailsMessage = s) ∧
    ((∀ s, mapGet e.GetDetails "error" ≠ some (GoVal.vstr s)) → e.GetDetailsMessage = "") := by
  refine ⟨?_, ?_, ?_, ?_⟩
  · intro m hm
    simp [CoreException.GetDetails, hm]
  · intro hno
    cases hd : mapGet e.Errors "details" with
    | none => simp [CoreException.GetDetails, hd]
    | some x =>
        cases x with
        | vmap m => exact absurd hd (hno m)
        | vstr s => simp [CoreException.GetDetails, hd]
        | vint n => simp [CoreException.GetDetails, hd]
        | vnull => simp [CoreException.GetDetails, hd]
  · intro s hs
    simp [CoreException.GetDetailsMessage, hs]
  · intro hno
    cases hd : mapGet e.GetDetails "error" with
    | none => simp [CoreException.GetDetailsMessage, hd]
    | some x =>
        cases x with
        | vstr s => exact absurd hd (hno s)
        | vint n => simp [CoreException.GetDetailsMessage, hd]
        | vmap m => simp [CoreException.GetDetailsMessage, hd]
        | vnull => simp [CoreException.GetDetailsMessage, hd]

/-- Claim C6 witness on a bag with a nested `"details"` map. -/
theorem getDetails_spec_witness :
    (NewInstance [("details", GoVal.vmap [("error", GoVal.vstr "E")])] 400 "trace").GetDetails
      = [("error", GoVal.vstr "E")] ∧
    (NewInstance [("details", GoVal.vmap [("error", GoVal.vstr "E")])] 400
        "trace").GetDetailsMessage = "E" :=
  ⟨(getDetails_spec (NewInstance [("details", GoVal.vmap [("error", GoVal.vstr "E")])] 400
      "trace")).1 [("error", GoVal.vstr "E")] rfl,
    (getDetails_spec (NewInstance [("details", GoVal.vmap [("error", GoVal.vstr "E")])] 400
      "trace")).2.2.1 "E" rfl⟩

/-- Claim C7: `NewStatusCode` validates an integer against the registry:
it returns the code with `true` exactly for registered values, the zero
value with `false` otherwise, and zero itself is never registered. -/
theorem newStatusCode_spec (value : Int) :
    (NewStatusCode value = (value, true) ↔ value ∈ mapKeys statusDescriptions) ∧
    (NewStatusCode value = (0, false) ↔ value ∉ mapKeys statusDescriptions) ∧
    (0 : Int) ∉ mapKeys statusDescriptions := by
  refine ⟨⟨?_, ?_⟩, ⟨?_, ?_⟩, by decide⟩
  · intro hr
    by_contra hmem
    have hnone := (mapGet_eq_none_iff statusDescriptions value).mpr hmem
    have hz : NewStatusCode value = (0, false) := by simp [NewStatusCode, hnone]
    rw [hz] at hr
    simp at hr
  · intro hmem
    cases hn : mapGet statusDescriptions value with
    | none => exact absurd hmem ((mapGet_eq_none_iff _ _).mp hn)
    | some d => simp [NewStatusCode, hn]
  · intro hr hmem
    cases hn : mapGet statusDescriptions value with
    | none => exact absurd hmem ((mapGet_eq_none_iff _ _).mp hn)
    | some d =>
        have hv : NewStatusCode value = (value, true) := by simp [NewStatusCode, hn]
        rw [hv] at hr
        simp at hr
  · intro hmem
    have hnone := (mapGet_eq_none_iff statusDescriptions value).mpr hmem
    simp [NewStatusCode, hnone]

/-- Claim C7 witness at a registered and an unregistered code. -/
theorem newStatusCode_spec_witness :
    NewStatusCode 404 = (404, true) ∧ NewStatusCode 999 = (0, false) :=
  ⟨(newStatusCode_spec 404).1.mpr (by decide), (newStatusCode_spec 999).2.1.mpr (by decide)⟩

/-- Claim C8: `GetDescription` returns the registered description for
registry members and the fixed sentinel for everything else, and the
sentinel never occurs as a registered description. -/
theorem getDescription_spec (c : Int) :
    (∀ d, mapGet statusDescriptions c = some d → GetDescription c = d) ∧
    (mapGet statusDescriptions c = none → GetDescription c = "Unknown Status Code") ∧
    (∀ p ∈ statusDescriptions, p.2 ≠ "Unknown Status Code") := by
  refine ⟨?_, ?_, by decide⟩
  · intro d hd
    simp [GetDescription, hd]
  · intro hn
    simp [GetDescription, hn]

/-- Claim C8 witness at a registered and an unregistered code. -/
theorem getDescription_spec_witness :
    GetDescription 200 = "OK" ∧ GetDescription 999 = "Unknown Status Code" :=
  ⟨(getDescription_spec 200).1 "OK" (by decide), (getDescription_spec 999).2.1 (by decide)⟩

/-- Claim C9: `GetStatusTexts` hands out a freshly allocated copy of the
registry: after any sequence of in-place mutations of that copy, the
registry cell still holds the original table, the registry lookups are
unchanged, and a subsequent `GetStatusTexts` call again yields the
original contents. -/
theorem getStatusTexts_defensive_copy (ms : List RegMut) (c : Int) :
    heapRead (applyMuts (GetStatusTextsH heap0).2 (GetStatusTextsH heap0).1 ms) 0
      = statusDescriptions ∧
    GetDescriptionH (applyMuts (GetStatusTextsH heap0).2 (GetStatusTextsH heap0).1 ms) c
      = GetDescription c ∧
    NewStatusCodeH (applyMuts (GetStatusTextsH heap0).2 (GetStatusTextsH heap0).1 ms) c
      = NewStatusCode c ∧
    mapGet
      (heapRead
        (GetStatusTextsH (applyMuts (GetStatusTextsH heap0).2 (GetStatusTextsH heap0).1 ms)).2
        (GetStatusTextsH (applyMuts (GetStatusTextsH heap0).2 (GetStatusTextsH heap0).1 ms)).1) c
      = mapGet statusDescriptions c := by
  have hzero :
      heapRead (applyMuts (GetStatusTextsH heap0).2 (GetStatusTextsH heap0).1 ms) 0
        = statusDescriptions := by
    rw [heapRead_applyMuts_zero ms (GetStatusTextsH heap0).2 (GetStatusTextsH heap0).1 (by decide)]
    rfl
  have hcopy : ∀ h : MapHeap, heapRead h 0 = statusDescriptions →
      mapGet (heapRead (GetStatusTextsH h).2 (GetStatusTextsH h).1) c
        = mapGet statusDescriptions c := by
    intro h hr
    show mapGet ((h.cells ++ [foldInsert [] (heapRead h 0)]).getD h.cells.length []) c
      = mapGet statusDescriptions c
    rw [getD_append_length, hr]
    exact foldInsert_get_total statusDescriptions c (by decide)
  refine ⟨hzero, ?_, ?_, hcopy _ hzero⟩
  · unfold GetDescriptionH GetDescription
    rw [hzero]
  · unfold NewStatusCodeH NewStatusCode
    rw [hzero]

/-- Claim C10: constructing with a nil detail map (embedded as the empty
map, which a nil Go map is observationally equal to for every read the
code performs) yields the default description as message, an empty bag,
empty nested details, an empty detail message, and an API view with
exactly the three fixed keys. -/
theorem newInstance_nil_details (code : Int) (tr : String) :
    (NewInstance [] code tr).Message = GetDescription code ∧
    (NewInstance [] code tr).GetErrors = [] ∧
    (NewInstance [] code tr).GetDetails = [] ∧
    (NewInstance [] code tr).GetDetailsMessage = "" ∧
    mapKeys (NewInstance [] code tr).Format = ["status", "error_code", "message"] :=
  ⟨rfl, rfl, rfl, rfl, rfl⟩

end GolangCore
